import Mathlib

/-!
Verification of the grouping-and-aggregation engine of
`powerplantmatching/cleaning.py` against its natural-language
specification.

The Python code is shallowly embedded: a dataframe row becomes a
`Record`, a table a `List Record`, pandas missing values (`NaN`) become
`Option`, float arithmetic is modelled over `ℚ`, and each relevant
function of `cleaning.py` is translated into an executable Lean
definition carrying the source function's name where possible.
-/

/-- One row of the working table (section DATA MODEL of the spec), with the
columns touched by `cleaning.py`.  Missing entries (`NaN`) are `none`. -/
structure Record where
  Name : Option String
  Country : Option String
  Fueltype : Option String
  Technology : Option String
  Set : Option String
  File : Option String
  Capacity : ℚ
  lat : Option ℚ
  lon : Option ℚ
  YearCommissioned : Option Int
  Retrofit : Option Int
  projectID : String
  Efficiency : Option ℚ
  Duration : Option ℚ
  deriving DecidableEq, Repr

/-- A convenient all-missing row used to build concrete test records. -/
def blankRecord : Record :=
  { Name := none, Country := none, Fueltype := none, Technology := none,
    Set := none, File := none, Capacity := 0, lat := none, lon := none,
    YearCommissioned := none, Retrofit := none, projectID := "",
    Efficiency := none, Duration := none }

/-! ## Pandas reducers

`aggregate_units` builds `props_for_groups` from `most_frequent`,
`pd.Series.sum`, `pd.Series.mean`, `pd.Series.min`, `pd.Series.max` and
`pd.Series.tolist`.  The pandas reducers skip missing values
(`skipna=True`); `sum` of an all-missing column is `0.0`, `mean` of an
all-missing column is again missing. -/

/-- Sum of a list of rationals (`foldl` with initial value 0). -/
def rsum (l : List ℚ) : ℚ := l.foldl (fun a b => a + b) 0

/-- The present (non-`NaN`) entries of a column, in row order. -/
def somesQ (l : List (Option ℚ)) : List ℚ := l.filterMap id

/-- `pd.Series.sum` with `skipna=True`: missing entries are dropped and an
all-missing column sums to `0`. -/
def pdSum (l : List (Option ℚ)) : ℚ := rsum (somesQ l)

/-- `pd.Series.mean` with `skipna=True`: mean of the present entries,
missing when no entry is present. -/
def pdMean (l : List (Option ℚ)) : Option ℚ :=
  if (somesQ l).length = 0 then none
  else some (rsum (somesQ l) / ((somesQ l).length : ℚ))

/-- The present entries of an integer column. -/
def somesI (l : List (Option Int)) : List Int := l.filterMap id

/-- `pd.Series.min` with `skipna=True`. -/
def pdMin (l : List (Option Int)) : Option Int :=
  match somesI l with
  | [] => none
  | x :: xs => some (xs.foldl min x)

/-- `pd.Series.max` with `skipna=True`. -/
def pdMax (l : List (Option Int)) : Option Int :=
  match somesI l with
  | [] => none
  | x :: xs => some (xs.foldl max x)

/-- `most_frequent(ds) = ds.value_counts(dropna=False).index[0]`
(`cleaning.py`, `aggregate_units`): the value of maximal multiplicity in
the column, with missing values counted as candidates like any other
value.  `value_counts` emits values in first-encounter order and the
descending sort leaves a unique maximum in front; among tied maxima the
pandas order comes from an unstable sort, so we fix the first-encountered
maximal value (no claim below depends on tie order). -/
def most_frequent (l : List (Option String)) : Option String :=
  (l.find? (fun v => l.all (fun w => decide (l.count w ≤ l.count v)))).getD none

/-! ## `aggregate_units` (cleaning.py lines 275-337)

Before grouping, the weighted columns Efficiency and Duration are
multiplied by the row's Capacity
(`df.assign(**{col: df[col] * df.Capacity for col in weighted_cols})`);
after `groupby('grouped').agg(props_for_groups)` the aggregated weighted
columns are divided by the aggregated (summed) Capacity
(`df[col].div(df['Capacity'])`).  The reducer table `props_for_groups`
uses `pd.Series.sum` for Duration and `pd.Series.mean` for Efficiency.
We model the default configuration in which every column of the reducer
table is among `target_columns`. -/

/-- Pre-weighting step: multiply Efficiency and Duration by Capacity
(missing stays missing, as `NaN * c = NaN`). -/
def weightCols (r : Record) : Record :=
  { r with Efficiency := r.Efficiency.map (fun e => e * r.Capacity),
           Duration := r.Duration.map (fun d => d * r.Capacity) }

/-- One aggregated (canonical) row.  Duration is reduced by `pd.Series.sum`
whose skipna semantics never yield a missing value, hence plain `ℚ`;
Efficiency is reduced by `pd.Series.mean`, which can stay missing. -/
structure AggRow where
  Name : Option String
  Country : Option String
  Fueltype : Option String
  Technology : Option String
  Set : Option String
  File : Option String
  Capacity : ℚ
  lat : Option ℚ
  lon : Option ℚ
  YearCommissioned : Option Int
  Retrofit : Option Int
  projectID : List String
  Duration : ℚ
  Efficiency : Option ℚ
  deriving DecidableEq, Repr

/-- `groupby('grouped').agg(props_for_groups)` applied to the members of
one group (rows already pre-weighted). -/
def aggReducers (ms : List Record) : AggRow :=
  { Name := most_frequent (ms.map (·.Name)),
    Country := most_frequent (ms.map (·.Country)),
    Fueltype := most_frequent (ms.map (·.Fueltype)),
    Technology := most_frequent (ms.map (·.Technology)),
    Set := most_frequent (ms.map (·.Set)),
    File := most_frequent (ms.map (·.File)),
    Capacity := rsum (ms.map (·.Capacity)),
    lat := pdMean (ms.map (·.lat)),
    lon := pdMean (ms.map (·.lon)),
    YearCommissioned := pdMin (ms.map (·.YearCommissioned)),
    Retrofit := pdMax (ms.map (·.Retrofit)),
    projectID := ms.map (·.projectID),
    Duration := pdSum (ms.map (·.Duration)),
    Efficiency := pdMean (ms.map (·.Efficiency)) }

/-- Post-aggregation unweighting: divide the aggregated weighted columns by
the aggregated Capacity (`df[col].div(df['Capacity'])`). -/
def unweightCols (a : AggRow) : AggRow :=
  { a with Efficiency := a.Efficiency.map (fun e => e / a.Capacity),
           Duration := a.Duration / a.Capacity }

/-- The value `aggregate_units` produces for one group: pre-weight every
member, run the reducer table, divide the weighted columns by the summed
Capacity. -/
def aggregateGroup (ms : List Record) : AggRow :=
  unweightCols (aggReducers (ms.map weightCols))

/-- Modelled from the spec: the capacity-weighted mean of a column, i.e.
the sum of value-times-Capacity over the group divided by the summed
Capacity (spec section 4.5, Efficiency/Duration rows). -/
def specWeightedMean (ms : List Record) (f : Record → Option ℚ) : ℚ :=
  rsum (ms.map (fun r => (f r).getD 0 * r.Capacity)) / rsum (ms.map (·.Capacity))

/-! Helper lemmas about the aggregation pipeline. -/

lemma somesQ_weighted_eff (ms : List Record)
    (h : ∀ r ∈ ms, (r.Efficiency).isSome) :
    somesQ ((ms.map weightCols).map (·.Efficiency)) =
      ms.map (fun r => (r.Efficiency).getD 0 * r.Capacity) := by
  induction ms with
  | nil => rfl
  | cons r rs ih =>
    have hr : (r.Efficiency).isSome := h r (List.mem_cons_self r rs)
    obtain ⟨e, he⟩ := Option.isSome_iff_exists.mp hr
    have hrs : ∀ x ∈ rs, (x.Efficiency).isSome := fun x hx => h x (List.mem_cons_of_mem _ hx)
    simp only [List.map_cons, weightCols, somesQ, List.filterMap_cons, he, Option.map_some]
    simpa [somesQ, he] using ih hrs

lemma somesQ_weighted_dur (ms : List Record)
    (h : ∀ r ∈ ms, (r.Duration).isSome) :
    somesQ ((ms.map weightCols).map (·.Duration)) =
      ms.map (fun r => (r.Duration).getD 0 * r.Capacity) := by
  induction ms with
  | nil => rfl
  | cons r rs ih =>
    have hr : (r.Duration).isSome := h r (List.mem_cons_self r rs)
    obtain ⟨d, hd⟩ := Option.isSome_iff_exists.mp hr
    have hrs : ∀ x ∈ rs, (x.Duration).isSome := fun x hx => h x (List.mem_cons_of_mem _ hx)
    simp only [List.map_cons, weightCols, somesQ, List.filterMap_cons, hd, Option.map_some]
    simpa [somesQ, hd] using ih hrs

lemma capacity_map_weightCols (ms : List Record) :
    (ms.map weightCols).map (·.Capacity) = ms.map (·.Capacity) := by
  induction ms with
  | nil => rfl
  | cons r rs ih => simp [weightCols, ih]

/-! ## Claims C3, C4, C10 about the aggregator -/

/-- A concrete row used for the C3 failing input: Capacity 1,
Efficiency 1, Duration 1. -/
def c3row : Record :=
  { blankRecord with Capacity := 1, Efficiency := some 1, Duration := some 1 }

/-- C3 (code_bug evaluation): on a group of two identical rows of
Capacity 1 and Efficiency 1 the code returns aggregated Efficiency 1/2
(pre-weighted values reduced by `pd.Series.mean`, then divided by the
summed Capacity), while the specified capacity-weighted mean — weighted
values reduced by sum, then divided by summed Capacity — is 1.  Duration,
reduced by `pd.Series.sum`, does satisfy the specified protocol on this
input. -/
theorem c3_code_eval :
    (aggregateGroup [c3row, c3row]).Efficiency = some (1 / 2) ∧
    specWeightedMean [c3row, c3row] (fun r => r.Efficiency) = 1 ∧
    (aggregateGroup [c3row, c3row]).Duration =
      specWeightedMean [c3row, c3row] (fun r => r.Duration) ∧
    some ((1 : ℚ) / 2) ≠ some (specWeightedMean [c3row, c3row] (fun r => r.Efficiency)) := by
  refine ⟨?_, ?_, ?_, ?_⟩ <;>
    norm_num [aggregateGroup, aggReducers, unweightCols, weightCols, pdMean, pdSum,
      rsum, somesQ, specWeightedMean, c3row, blankRecord, List.filterMap_cons,
      List.filterMap_nil, id_eq, Option.map_some, Option.map_none, List.foldl_cons,
      List.foldl_nil, List.length_cons, List.length_nil]

/-- C4: for a singleton group with positive Capacity the weight-then-
unweight protocol is an exact round-trip: aggregated Efficiency and
Duration equal the record's original unweighted values. -/
theorem c4_roundtrip (r : Record) (e d : ℚ) (hc : 0 < r.Capacity)
    (he : r.Efficiency = some e) (hd : r.Duration = some d) :
    (aggregateGroup [r]).Efficiency = some e ∧ (aggregateGroup [r]).Duration = d := by
  have hc0 : r.Capacity ≠ 0 := ne_of_gt hc
  constructor
  · simp only [aggregateGroup, aggReducers, unweightCols, weightCols, pdMean, pdSum,
      rsum, somesQ, List.map_cons, List.map_nil, List.filterMap_cons, List.filterMap_nil,
      he, hd, Option.map_some, List.foldl_cons, List.foldl_nil, List.length_cons,
      List.length_nil, Option.some.injEq]
    norm_num
    field_simp
  · simp only [aggregateGroup, aggReducers, unweightCols, weightCols, pdMean, pdSum,
      rsum, somesQ, List.map_cons, List.map_nil, List.filterMap_cons, List.filterMap_nil,
      he, hd, Option.map_some, List.foldl_cons, List.foldl_nil]
    norm_num
    field_simp

/-- A concrete singleton-group row for the C4 witness. -/
def c4row : Record :=
  { blankRecord with Capacity := 2, Efficiency := some (1 / 2), Duration := some 3 }

theorem c4_witness :
    (aggregateGroup [c4row]).Efficiency = some (1 / 2) ∧
    (aggregateGroup [c4row]).Duration = 3 :=
  c4_roundtrip c4row (1 / 2) 3 (by norm_num [c4row, blankRecord]) rfl rfl

/-! ## Claim C10: missing values compete in the most-frequent reducer -/

lemma find?_eq_some_of_unique {α : Type} (p : α → Bool) (x : α) (l : List α)
    (hx : x ∈ l) (hpx : p x = true) (huniq : ∀ y, p y = true → y = x) :
    l.find? p = some x := by
  induction l with
  | nil => cases hx
  | cons a as ih =>
    by_cases hpa : p a = true
    · rw [List.find?_cons_of_pos _ hpa, huniq a hpa]
    · have hpa' : ¬ (p a = true) := hpa
      have hax : a ≠ x := fun h => hpa' (h ▸ hpx)
      have hx' : x ∈ as := by
        rcases List.mem_cons.mp hx with h | h
        · exact absurd h.symm hax
        · exact h
      rw [List.find?_cons_of_neg _ hpa']
      exact ih hx'

/-- If missing is strictly the most common value of a column, then
`most_frequent` returns missing. -/
lemma most_frequent_none (l : List (Option String))
    (h0 : 0 < l.count none)
    (h : ∀ v ∈ l, v ≠ none → l.count v < l.count none) :
    most_frequent l = none := by
  have hmem : (none : Option String) ∈ l := by
    by_contra hn
    have hz := List.count_eq_zero.mpr hn
    omega
  have hpnone : (fun v => l.all (fun w => decide (l.count w ≤ l.count v))) none = true := by
    simp only [List.all_eq_true]
    intro w hw
    by_cases hwn : w = none
    · subst hwn; simp
    · exact decide_eq_true (le_of_lt (h w hw hwn))
  have huniq : ∀ y, (fun v => l.all (fun w => decide (l.count w ≤ l.count v))) y = true →
      y = none := by
    intro y hy
    by_contra hyn
    have hle : l.count none ≤ l.count y :=
      of_decide_eq_true (List.all_eq_true.mp hy none hmem)
    by_cases hyl : y ∈ l
    · exact absurd hle (not_le.mpr (h y hyl hyn))
    · have hz : l.count y = 0 := List.count_eq_zero.mpr hyl
      omega
  have hfind := find?_eq_some_of_unique _ none l hmem hpnone huniq
  simp [most_frequent, hfind]

/-- C10: the most-frequent reducer of `aggregate_units` counts missing
values as candidates: whenever missing is strictly the most common value
of a categorical column within a group, the canonical record's value for
that column is missing, even when some members carry a real value. -/
theorem c10_missing_mode (ms : List Record) :
    (0 < (ms.map (fun r => r.Name)).count none →
      (∀ v ∈ ms.map (fun r => r.Name), v ≠ none →
        (ms.map (fun r => r.Name)).count v < (ms.map (fun r => r.Name)).count none) →
      (aggregateGroup ms).Name = none) ∧
    (0 < (ms.map (fun r => r.Country)).count none →
      (∀ v ∈ ms.map (fun r => r.Country), v ≠ none →
        (ms.map (fun r => r.Country)).count v < (ms.map (fun r => r.Country)).count none) →
      (aggregateGroup ms).Country = none) ∧
    (0 < (ms.map (fun r => r.Fueltype)).count none →
      (∀ v ∈ ms.map (fun r => r.Fueltype), v ≠ none →
        (ms.map (fun r => r.Fueltype)).count v < (ms.map (fun r => r.Fueltype)).count none) →
      (aggregateGroup ms).Fueltype = none) ∧
    (0 < (ms.map (fun r => r.Technology)).count none →
      (∀ v ∈ ms.map (fun r => r.Technology), v ≠ none →
        (ms.map (fun r => r.Technology)).count v < (ms.map (fun r => r.Technology)).count none) →
      (aggregateGroup ms).Technology = none) ∧
    (0 < (ms.map (fun r => r.Set)).count none →
      (∀ v ∈ ms.map (fun r => r.Set), v ≠ none →
        (ms.map (fun r => r.Set)).count v < (ms.map (fun r => r.Set)).count none) →
      (aggregateGroup ms).Set = none) ∧
    (0 < (ms.map (fun r => r.File)).count none →
      (∀ v ∈ ms.map (fun r => r.File), v ≠ none →
        (ms.map (fun r => r.File)).count v < (ms.map (fun r => r.File)).count none) →
      (aggregateGroup ms).File = none) := by
  refine ⟨?_, ?_, ?_, ?_, ?_, ?_⟩ <;> intro h0 h
  · show most_frequent ((ms.map weightCols).map (fun r => r.Name)) = none
    rw [List.map_map]
    exact most_frequent_none _ h0 h
  · show most_frequent ((ms.map weightCols).map (fun r => r.Country)) = none
    rw [List.map_map]
    exact most_frequent_none _ h0 h
  · show most_frequent ((ms.map weightCols).map (fun r => r.Fueltype)) = none
    rw [List.map_map]
    exact most_frequent_none _ h0 h
  · show most_frequent ((ms.map weightCols).map (fun r => r.Technology)) = none
    rw [List.map_map]
    exact most_frequent_none _ h0 h
  · show most_frequent ((ms.map weightCols).map (fun r => r.Set)) = none
    rw [List.map_map]
    exact most_frequent_none _ h0 h
  · show most_frequent ((ms.map weightCols).map (fun r => r.File)) = none
    rw [List.map_map]
    exact most_frequent_none _ h0 h

/-- A row with real values in all categorical columns, outvoted 2:1 by
missing values in the C10 witness group. -/
def c10row : Record :=
  { blankRecord with Name := some "A", Country := some "B", Fueltype := some "C",
                     Technology := some "D", Set := some "E", File := some "F" }

theorem c10_witness :
    (aggregateGroup [blankRecord, blankRecord, c10row]).Name = none ∧
    (aggregateGroup [blankRecord, blankRecord, c10row]).Country = none ∧
    (aggregateGroup [blankRecord, blankRecord, c10row]).File = none :=
  ⟨(c10_missing_mode _).1 (by decide) (by decide),
   (c10_missing_mode _).2.1 (by decide) (by decide),
   (c10_missing_mode _).2.2.2.2.2 (by decide) (by decide)⟩

/-! ## `cliques` (cleaning.py lines 218-243)

`cliques(df, dataduplicates)` builds a directed graph on `df.index` from
the signal pairs, keeps only reciprocal pairs as undirected edges
(`G.to_undirected(reciprocal=True)`), enumerates maximal cliques with
`networkx.algorithms.clique.find_cliques` and assigns
`grouped.loc[inds] = i` for clique number `i` in enumeration order —
later cliques overwrite earlier assignments.

`find_cliques` is the iterative Bron-Kerbosch-with-pivot generator of
networkx 2.x.  Its order depends on CPython set iteration; for small
non-negative integer keys (all concrete graphs below use nodes 0..3)
CPython sets iterate in ascending order and `set.pop()` removes the
smallest element, so sets are modelled as ascending sorted lists. -/

/-- An undirected edge of `H = G.to_undirected(reciprocal=True)`: present
iff both directed pairs were asserted. -/
def hasEdge (sigs : List (Nat × Nat)) (a b : Nat) : Bool :=
  decide ((a, b) ∈ sigs) && decide ((b, a) ∈ sigs)

/-- Node set of the graph: `df.index` (0..n-1) plus every endpoint
mentioned by a signal (`nx.DiGraph.add_edges_from` inserts unknown
endpoints as new nodes), in ascending order. -/
def graphNodes (n : Nat) (sigs : List (Nat × Nat)) : List Nat :=
  List.insertionSort (fun a b => a ≤ b)
    ((List.range n ++ sigs.map Prod.fst ++ sigs.map Prod.snd).dedup)

/-- `adj[u] = {v for v in G[u] if v != u}` over the reciprocal graph. -/
def adjOf (nodes : List Nat) (sigs : List (Nat × Nat)) (u : Nat) : List Nat :=
  nodes.filter (fun v => v != u && hasEdge sigs u v)

/-- Intersection of two CPython sets modelled on sorted lists. -/
def listInter (a b : List Nat) : List Nat := a.filter (fun x => b.contains x)

/-- Difference of two CPython sets modelled on sorted lists. -/
def listDiff (a b : List Nat) : List Nat := a.filter (fun x => !(b.contains x))

/-- `max(subg, key=lambda u: len(cand & adj[u]))`: first element of `subg`
(ascending iteration) attaining the maximal key. -/
def pickPivot (adj : Nat → List Nat) (cand : List Nat) : List Nat → Nat
  | [] => 0
  | s :: ss =>
    ss.foldl (fun best v =>
      if (listInter cand (adj best)).length < (listInter cand (adj v)).length then v
      else best) s

/-- The iterative Bron-Kerbosch-with-pivot loop of networkx
`find_cliques`, with the stack of `(Q, subg, cand, ext_u)` frames made
explicit and a fuel bound on loop iterations (the Python loop terminates;
every concrete use below supplies ample fuel). -/
def bkLoop (adj : Nat → List Nat) :
    Nat → List Nat → List Nat → List Nat → List Nat →
    List (List Nat × List Nat × List Nat × List Nat) →
    List (List Nat) → List (List Nat)
  | 0, _, _, _, _, _, acc => acc
  | fuel + 1, Qb, subg, cand, ext, stack, acc =>
    match ext with
    | [] =>
      match stack with
      | [] => acc
      | (Qb2, s2, c2, e2) :: st2 => bkLoop adj fuel Qb2 s2 c2 e2 st2 acc
    | q :: ext2 =>
      let cand2 := cand.filter (fun x => x != q)
      let subgq := listInter subg (adj q)
      if subgq.isEmpty then
        bkLoop adj fuel Qb subg cand2 ext2 stack (acc ++ [Qb ++ [q]])
      else
        let candq := listInter cand2 (adj q)
        if candq.isEmpty then
          bkLoop adj fuel Qb subg cand2 ext2 stack acc
        else
          bkLoop adj fuel (Qb ++ [q]) subgq candq
            (listDiff candq (adj (pickPivot adj candq subgq)))
            ((Qb, subg, cand2, ext2) :: stack) acc

/-- `networkx.algorithms.clique.find_cliques` on the reciprocal graph. -/
def find_cliques (nodes : List Nat) (adj : Nat → List Nat) (fuel : Nat) :
    List (List Nat) :=
  match nodes with
  | [] => []
  | _ :: _ =>
    bkLoop adj fuel [] nodes nodes
      (listDiff nodes (adj (pickPivot adj nodes nodes))) [] []

/-- The overwrite loop `for i, inds in enumerate(find_cliques(H)):
grouped.loc[inds] = i`, processing cliques `cs` with the next clique
index `i` and the group value accumulated so far for node `v`. -/
def assignFrom : List (List Nat) → Nat → Nat → Option Nat → Option Nat
  | [], _, _, cur => cur
  | c :: rest, i, v, cur => assignFrom rest (i + 1) v (if v ∈ c then some i else cur)

/-- Final group id of node `v` after the whole overwrite loop (missing if
no clique contains `v`, which cannot happen for a node of the graph). -/
def assignGroups (cs : List (List Nat)) (v : Nat) : Option Nat :=
  assignFrom cs 0 v none

/-- The index of the last clique of `cs` containing `v` — the reference
function the overwrite loop is proved equal to. -/
def lastContaining : List (List Nat) → Nat → Option Nat
  | [], _ => none
  | c :: rest, v =>
    match lastContaining rest v with
    | some g => some (g + 1)
    | none => if v ∈ c then some 0 else none

/-- The records of group `g`: members of the index set whose assigned
group id is `g`. -/
def groupMembers (cs : List (List Nat)) (ns : List Nat) (g : Nat) : List Nat :=
  ns.filter (fun v => decide (assignGroups cs v = some g))

/-- The whole `cliques` grouping for a table of `n` rows: group id per
record index. -/
def cliquesGrouping (n : Nat) (sigs : List (Nat × Nat)) (fuel : Nat) :
    Nat → Option Nat :=
  assignGroups (find_cliques (graphNodes n sigs) (adjOf (graphNodes n sigs) sigs) fuel)

/-! ## Characterisation of the overwrite loop -/

/-- Shift a clique index by the loop counter, falling back to the value
accumulated so far. -/
def shiftAssign (i : Nat) (cur : Option Nat) : Option Nat → Option Nat
  | some g => some (i + g)
  | none => cur

lemma assignFrom_eq (cs : List (List Nat)) (v : Nat) :
    ∀ (i : Nat) (cur : Option Nat),
      assignFrom cs i v cur = shiftAssign i cur (lastContaining cs v) := by
  induction cs with
  | nil => intro i cur; rfl
  | cons c rest ih =>
    intro i cur
    show assignFrom rest (i + 1) v (if v ∈ c then some i else cur) = _
    rw [ih]
    cases hrc : lastContaining rest v with
    | some g =>
      have h2 : lastContaining (c :: rest) v = some (g + 1) := by
        simp [lastContaining, hrc]
      rw [h2]
      simp only [shiftAssign, Option.some.injEq]
      omega
    | none =>
      have h2 : lastContaining (c :: rest) v = if v ∈ c then some 0 else none := by
        simp [lastContaining, hrc]
      rw [h2]
      by_cases hv : v ∈ c <;> simp [hv, shiftAssign]

/-- The overwrite loop assigns every node the index of the last
enumerated clique containing it. -/
lemma assignGroups_eq (cs : List (List Nat)) (v : Nat) :
    assignGroups cs v = lastContaining cs v := by
  unfold assignGroups
  rw [assignFrom_eq]
  cases h : lastContaining cs v <;> simp [shiftAssign]

lemma lastContaining_isSome (cs : List (List Nat)) (v : Nat)
    (h : ∃ c ∈ cs, v ∈ c) : (lastContaining cs v).isSome := by
  induction cs with
  | nil => simp at h
  | cons c rest ih =>
    by_cases hr : ∃ d ∈ rest, v ∈ d
    · have hs := ih hr
      unfold lastContaining
      cases hlc : lastContaining rest v with
      | some g => simp
      | none => rw [hlc] at hs; simp at hs
    · have hvc : v ∈ c := by
        rcases h with ⟨d, hd, hvd⟩
        rcases List.mem_cons.mp hd with rfl | hd2
        · exact hvd
        · exact absurd ⟨d, hd2, hvd⟩ hr
      unfold lastContaining
      cases hlc : lastContaining rest v with
      | some g => simp
      | none => simp [hvc]

lemma lastContaining_eq_none (cs : List (List Nat)) (v : Nat) :
    lastContaining cs v = none ↔ ∀ c ∈ cs, v ∉ c := by
  induction cs with
  | nil => simp [lastContaining]
  | cons c rest ih =>
    unfold lastContaining
    cases hlc : lastContaining rest v with
    | some g =>
      simp only [List.forall_mem_cons]
      constructor
      · intro h; cases h
      · intro h
        have hz : lastContaining rest v = none := ih.mpr h.2
        rw [hlc] at hz; cases hz
    | none =>
      have hrest : ∀ d ∈ rest, v ∉ d := ih.mp hlc
      by_cases hv : v ∈ c
      · simp only [if_pos hv, List.forall_mem_cons]
        constructor
        · intro h; cases h
        · intro h; exact absurd hv h.1
      · simp only [if_neg hv, List.forall_mem_cons]
        simp only [eq_self_iff_true, true_iff]
        exact ⟨hv, hrest⟩

lemma getD_mem (l : List (List Nat)) (j : Nat) (hj : j < l.length) :
    l.getD j [] ∈ l := by
  rw [List.getD_eq_getElem l [] hj]
  exact List.getElem_mem hj

/-- `lastContaining cs v = some g` means: clique `g` exists, contains `v`,
and no later clique contains `v`. -/
lemma lastContaining_spec (cs : List (List Nat)) (v g : Nat)
    (h : lastContaining cs v = some g) :
    g < cs.length ∧ v ∈ cs.getD g [] ∧
      ∀ j, g < j → j < cs.length → v ∉ cs.getD j [] := by
  induction cs generalizing g with
  | nil => cases h
  | cons c rest ih =>
    unfold lastContaining at h
    cases hlc : lastContaining rest v with
    | some g0 =>
      rw [hlc] at h
      have hg : g = g0 + 1 := (Option.some.inj h).symm
      subst hg
      obtain ⟨h1, h2, h3⟩ := ih g0 hlc
      refine ⟨Nat.succ_lt_succ h1, by simpa [List.getD_cons_succ] using h2, ?_⟩
      intro j hj hjlen
      cases j with
      | zero => omega
      | succ j2 =>
        rw [List.getD_cons_succ]
        exact h3 j2 (by omega) (by simpa using hjlen)
    | none =>
      rw [hlc] at h
      by_cases hv : v ∈ c
      · rw [if_pos hv] at h
        have hg : g = 0 := (Option.some.inj h).symm
        subst hg
        refine ⟨Nat.succ_pos _, by simpa [List.getD_cons_zero] using hv, ?_⟩
        intro j hj hjlen
        cases j with
        | zero => omega
        | succ j2 =>
          rw [List.getD_cons_succ]
          exact (lastContaining_eq_none rest v).mp hlc _
            (getD_mem rest j2 (by simpa using hjlen))
      · rw [if_neg hv] at h; cases h

/-! ## Claims C1, C2, C5 about the partitioner -/

/-- C1: the grouping step assigns every record index exactly one group id
whenever every node is contained in some enumerated clique (maximal-clique
enumeration covers every node of the graph; an isolated node appears as
its own singleton clique).  The resulting groups are pairwise disjoint,
their union is the full index set, and a node whose only enumerated
clique is its own singleton forms a singleton group. -/
theorem c1_partition (ns : List Nat) (cs : List (List Nat))
    (hcov : ∀ v ∈ ns, ∃ c ∈ cs, v ∈ c) :
    (∀ v ∈ ns, ∃! g, assignGroups cs v = some g) ∧
    (∀ g1 g2, g1 ≠ g2 → ∀ v, ¬(v ∈ groupMembers cs ns g1 ∧ v ∈ groupMembers cs ns g2)) ∧
    (∀ v, v ∈ ns ↔ ∃ g, v ∈ groupMembers cs ns g) ∧
    (∀ v ∈ ns, (∀ c ∈ cs, v ∈ c → c = [v]) →
      ∀ g, assignGroups cs v = some g → ∀ w, w ∈ groupMembers cs ns g → w = v) := by
  have htotal : ∀ v ∈ ns, ∃ g, assignGroups cs v = some g := by
    intro v hv
    rw [assignGroups_eq]
    obtain ⟨g, hg⟩ := Option.isSome_iff_exists.mp (lastContaining_isSome cs v (hcov v hv))
    exact ⟨g, hg⟩
  refine ⟨?_, ?_, ?_, ?_⟩
  · intro v hv
    obtain ⟨g, hg⟩ := htotal v hv
    exact ⟨g, hg, fun g2 hg2 => (Option.some.inj (hg.symm.trans hg2)).symm⟩
  · rintro g1 g2 hne v ⟨h1, h2⟩
    have f1 := of_decide_eq_true (List.mem_filter.mp h1).2
    have f2 := of_decide_eq_true (List.mem_filter.mp h2).2
    rw [f1] at f2
    exact hne (Option.some.inj f2)
  · intro v
    constructor
    · intro hv
      obtain ⟨g, hg⟩ := htotal v hv
      exact ⟨g, List.mem_filter.mpr ⟨hv, decide_eq_true hg⟩⟩
    · rintro ⟨g, hg⟩
      exact (List.mem_filter.mp hg).1
  · intro v hv hsingle g hg w hw
    have hwassign : assignGroups cs w = some g :=
      of_decide_eq_true (List.mem_filter.mp hw).2
    have hvspec := lastContaining_spec cs v g (by rw [← assignGroups_eq]; exact hg)
    have hwspec := lastContaining_spec cs w g (by rw [← assignGroups_eq]; exact hwassign)
    have hcl : cs.getD g [] = [v] := hsingle _ (getD_mem cs g hvspec.1) hvspec.2.1
    have hwv : w ∈ [v] := hcl ▸ hwspec.2.1
    simpa using hwv

/-- Signals of the witness graph: a reciprocal pair between 0 and 1,
node 2 isolated. -/
def w1sigs : List (Nat × Nat) := [(0, 1), (1, 0)]

/-- Maximal cliques found on the witness graph over nodes 0, 1, 2. -/
def w1cliques : List (List Nat) :=
  find_cliques (graphNodes 3 w1sigs) (adjOf (graphNodes 3 w1sigs) w1sigs) 30

theorem c1_partition_witness :
    (∃! g, assignGroups w1cliques 2 = some g) ∧
    ((2 : Nat) ∈ [0, 1, 2] ↔ ∃ g, 2 ∈ groupMembers w1cliques [0, 1, 2] g) :=
  ⟨(c1_partition [0, 1, 2] w1cliques (by decide)).1 2 (by decide),
   (c1_partition [0, 1, 2] w1cliques (by decide)).2.2.1 2⟩

/-- C2: an undirected edge of the compatibility graph exists iff both
directions of the signal are present; and two distinct records placed in
the same group are always joined by such a reciprocal pair (a lone
one-directional signal never merges two records), for any clique list in
which every enumerated set is a clique of the graph — as every list
produced by `find_cliques` is. -/
theorem c2_reciprocal (sigs : List (Nat × Nat)) (cs : List (List Nat)) (a b : Nat)
    (hclq : ∀ c ∈ cs, ∀ x ∈ c, ∀ y ∈ c, x ≠ y → hasEdge sigs x y = true) :
    (hasEdge sigs a b = true ↔ ((a, b) ∈ sigs ∧ (b, a) ∈ sigs)) ∧
    (a ≠ b → ∀ g, assignGroups cs a = some g → assignGroups cs b = some g →
      ((a, b) ∈ sigs ∧ (b, a) ∈ sigs)) := by
  have hiff : hasEdge sigs a b = true ↔ ((a, b) ∈ sigs ∧ (b, a) ∈ sigs) := by
    simp [hasEdge]
  refine ⟨hiff, ?_⟩
  intro hne g hga hgb
  have ha := lastContaining_spec cs a g (by rw [← assignGroups_eq]; exact hga)
  have hb := lastContaining_spec cs b g (by rw [← assignGroups_eq]; exact hgb)
  exact hiff.mp (hclq _ (getD_mem cs g ha.1) a ha.2.1 b hb.2.1 hne)

theorem c2_reciprocal_witness : ((0, 1) ∈ w1sigs ∧ (1, 0) ∈ w1sigs) :=
  (c2_reciprocal w1sigs w1cliques 0 1 (by decide)).2 (by decide) 0
    (by decide) (by decide)

/-- Duplicate signals describing a reciprocal 4-cycle 0-1-2-3-0: its
maximal cliques are the four edges, which overlap at every node. -/
def c5sigs : List (Nat × Nat) :=
  [(0, 1), (1, 0), (1, 2), (2, 1), (2, 3), (3, 2), (3, 0), (0, 3)]

/-- The cliques enumerated by `find_cliques` on the 4-cycle, in discovery
order: [[0,1], [0,3], [2,1], [2,3]]. -/
def c5cliques : List (List Nat) :=
  find_cliques (graphNodes 4 c5sigs) (adjOf (graphNodes 4 c5sigs) c5sigs) 40

/-- C5 counterexample: on the 4-cycle the enumeration finds 4 maximal
cliques; record 0 lies in the first clique (index 0) yet is assigned
group 1, because the overwrite loop lets later cliques win; and no
record at all is assigned group id 0 while id 3 is in use — the id range
has a gap, so the ids are not dense and the assignment is not
first-clique-wins. -/
theorem c5_counterexample :
    c5cliques.length = 4 ∧
    (0 ∈ c5cliques.getD 0 []) ∧
    assignGroups c5cliques 0 = some 1 ∧
    assignGroups c5cliques 3 = some 3 ∧
    List.filter (fun v => decide (assignGroups c5cliques v = some 0)) [0, 1, 2, 3] = [] := by
  decide

/-- C5 amended: each record is assigned the index of the LAST maximal
clique containing it in discovery order (the group ids are clique
indices, hence lie below the clique count, but need not form a gap-free
range). -/
theorem c5_last_clique (cs : List (List Nat)) (v g : Nat) :
    assignGroups cs v = some g ↔
      (g < cs.length ∧ v ∈ cs.getD g [] ∧
        ∀ j, g < j → j < cs.length → v ∉ cs.getD j []) := by
  rw [assignGroups_eq]
  constructor
  · exact lastContaining_spec cs v g
  · rintro ⟨hg, hv, hafter⟩
    have hsome := lastContaining_isSome cs v ⟨cs.getD g [], getD_mem cs g hg, hv⟩
    obtain ⟨g2, hg2⟩ := Option.isSome_iff_exists.mp hsome
    obtain ⟨h1, h2, h3⟩ := lastContaining_spec cs v g2 hg2
    have hgg : g2 = g := by
      by_contra hne
      rcases Nat.lt_or_ge g2 g with hlt | hge
      · exact h3 g hlt hg hv
      · exact hafter g2 (lt_of_le_of_ne hge (Ne.symm hne)) h1 h2
    rw [hg2, hgg]

theorem c5_last_clique_witness : assignGroups [[0], [0, 1]] 0 = some 1 :=
  (c5_last_clique [[0], [0, 1]] 0 1).mpr
    ⟨by decide, by decide, by intro j hj hjlen; simp at hjlen; omega⟩

/-! ## Claim C8: the cache read of `aggregate_units` (cleaning.py 308-329)

`aggregate_units` wraps the cache read in
`try: groups = pd.read_csv(path, header=None, index_col=0)
          .reindex(index=df.index); df = df.assign(grouped=groups.values)
except (ValueError, IOError): warn; drop 'grouped'`.
A missing file raises `FileNotFoundError <: IOError` and malformed
content raises `pandas.errors.ParserError <: ValueError` — both caught
(`CacheRead.readFailure` below).  A successfully parsed file is a
two-column table of (index label, group id) rows, held by
`CacheRead.fileOk`.  `reindex(index=df.index)` raises `ValueError` only
when the cached index has duplicate labels (also caught); on a mere
row-count mismatch it raises nothing: missing labels are filled with a
missing group id, extra labels are silently dropped, and the misaligned
grouping is then used without warning ('grouped' is present, so the
`if 'grouped' not in df:` recomputation is skipped, and rows whose group
id is missing are later dropped by `groupby`).  The external matcher
`duke(df)` is out of scope; its output is the `sigs` parameter,
identical on both paths, and the name-cleaning passes are likewise
identical on both paths and factored out. -/

inductive CacheRead where
  | fileOk (entries : List (Nat × Nat))
  | readFailure
  deriving DecidableEq, Repr

/-- `.reindex(index=df.index)` on the parsed cache table: `none` models
the `ValueError` raised for a duplicate-label cached index (caught by
the except branch); otherwise the mapping is aligned to the current
index 0..n-1, a label absent from the cache yielding a missing group id
and extra labels being dropped — a row-count mismatch raises nothing. -/
def reindexCache (n : Nat) (entries : List (Nat × Nat)) : Option (List (Option Nat)) :=
  if (entries.map Prod.fst).Nodup then
    some ((List.range n).map (fun i => (entries.find? (fun p => p.1 == i)).map Prod.snd))
  else none

/-- Group keys of `groupby('grouped')`: distinct non-missing ids in
ascending order (rows with a missing group id are dropped by groupby). -/
def groupIdsOf (rows : List (Record × Option Nat)) : List Nat :=
  List.insertionSort (fun a b => a ≤ b) ((rows.filterMap Prod.snd).dedup)

/-- Member rows of one group. -/
def membersOf (rows : List (Record × Option Nat)) (g : Nat) : List Record :=
  (rows.filter (fun p => p.2 == some g)).map Prod.fst

/-- `groupby('grouped').agg(props_for_groups)` followed by the unweighting
division, one output row per group id. -/
def aggregateGrouped (rows : List (Record × Option Nat)) : List AggRow :=
  (groupIdsOf rows).map (fun g => aggregateGroup (membersOf rows g))

/-- The grouping-and-aggregation core of `aggregate_units`: when
`use_saved_aggregation & save_aggregation` holds, read the cache and
reindex it; fall back to the `cliques` recomputation exactly when the
read or the reindex raised a caught exception. -/
def aggregate_units (useSaved saveAgg : Bool) (cache : CacheRead)
    (df : List Record) (sigs : List (Nat × Nat)) (fuel : Nat) : List AggRow :=
  let cached : Option (List (Option Nat)) :=
    if useSaved && saveAgg then
      match cache with
      | CacheRead.fileOk entries => reindexCache df.length entries
      | CacheRead.readFailure => none
    else none
  let groups : List (Option Nat) :=
    match cached with
    | some gs => gs
    | none => (List.range df.length).map (cliquesGrouping df.length sigs fuel)
  aggregateGrouped (df.zip groups)

/-- C8 counterexample: a stale one-row cache `[(0, 0)]` against a
current two-row table reindexes successfully — no exception, hence no
warning and no recomputation.  Record 1 gets a missing group id and is
dropped by groupby, so the cached run returns one canonical row where
the uncached run returns two: on a shape mismatch the result is NOT
identical to the uncached run, refuting the claim's shape-mismatch leg. -/
theorem c8_counterexample :
    (aggregate_units true true (CacheRead.fileOk [(0, 0)])
      [blankRecord, blankRecord] [] 20).length = 1 ∧
    (aggregate_units false true (CacheRead.fileOk [(0, 0)])
      [blankRecord, blankRecord] [] 20).length = 2 ∧
    aggregate_units true true (CacheRead.fileOk [(0, 0)])
        [blankRecord, blankRecord] [] 20 ≠
      aggregate_units false true (CacheRead.fileOk [(0, 0)])
        [blankRecord, blankRecord] [] 20 := by
  have h1 : (aggregate_units true true (CacheRead.fileOk [(0, 0)])
      [blankRecord, blankRecord] [] 20).length = 1 := by decide
  have h2 : (aggregate_units false true (CacheRead.fileOk [(0, 0)])
      [blankRecord, blankRecord] [] 20).length = 2 := by decide
  refine ⟨h1, h2, fun h => ?_⟩
  rw [h] at h1
  omega

/-- C8 amended: when the cache read raises — missing file, malformed
content, or a duplicate-label cached index making the reindex raise
`ValueError` — `aggregate_units` never raises: it warns, treats the
situation as a cache miss, and recomputes with a result identical to the
uncached run.  A cached mapping that merely mismatches the current
table's index in shape reindexes successfully and is NOT treated as a
failure: the misaligned grouping is used as-is, without warning or
recomputation. -/
theorem c8_cache_semantics (saveAgg : Bool) (c : CacheRead) (df : List Record)
    (sigs : List (Nat × Nat)) (fuel : Nat) :
    (aggregate_units true saveAgg CacheRead.readFailure df sigs fuel =
       aggregate_units false saveAgg c df sigs fuel) ∧
    (∀ entries : List (Nat × Nat), ¬ (entries.map Prod.fst).Nodup →
       aggregate_units true saveAgg (CacheRead.fileOk entries) df sigs fuel =
         aggregate_units false saveAgg c df sigs fuel) ∧
    (∀ entries : List (Nat × Nat), (entries.map Prod.fst).Nodup →
       aggregate_units true true (CacheRead.fileOk entries) df sigs fuel =
         aggregateGrouped (df.zip ((List.range df.length).map
           (fun i => (entries.find? (fun p => p.1 == i)).map Prod.snd)))) := by
  refine ⟨?_, ?_, ?_⟩
  · cases saveAgg <;> rfl
  · intro entries hnd
    have hrc : reindexCache df.length entries = none := by
      simp [reindexCache, hnd]
    cases saveAgg with
    | false => rfl
    | true => simp [aggregate_units, hrc]
  · intro entries hnd
    have hrc : reindexCache df.length entries =
        some ((List.range df.length).map
          (fun i => (entries.find? (fun p => p.1 == i)).map Prod.snd)) := by
      simp [reindexCache, hnd]
    simp [aggregate_units, hrc]

/-- A duplicate-label cache (reindex raises, caught, recompute) and a
shape-mismatched but duplicate-free cache (used as-is) at concrete
inputs. -/
theorem c8_cache_semantics_witness :
    (aggregate_units true true (CacheRead.fileOk [(0, 0), (0, 1)])
        [blankRecord] [] 20 =
      aggregate_units false true CacheRead.readFailure [blankRecord] [] 20) ∧
    (aggregate_units true true (CacheRead.fileOk [(0, 5)])
        [blankRecord, blankRecord] [] 20 =
      aggregateGrouped ([blankRecord, blankRecord].zip [some 5, none])) :=
  ⟨(c8_cache_semantics true CacheRead.readFailure [blankRecord] [] 20).2.1
      [(0, 0), (0, 1)] (by decide),
   (c8_cache_semantics true CacheRead.readFailure [blankRecord, blankRecord]
      [] 20).2.2 [(0, 5)] (by decide)⟩

/-! ## ASCII case folding

Python `str.lower`/`str.upper`/`str.capitalize` and the `(?i)` regex
flag, modelled on the ASCII range (all keywords and pattern words of
`cleaning.py` are ASCII). -/

def asciiUpperChars : List Char := "ABCDEFGHIJKLMNOPQRSTUVWXYZ".toList

def asciiLowerChars : List Char := "abcdefghijklmnopqrstuvwxyz".toList

def caseMapDown : List (Char × Char) := asciiUpperChars.zip asciiLowerChars

def caseMapUp : List (Char × Char) := asciiLowerChars.zip asciiUpperChars

def lowerCh (c : Char) : Char :=
  match caseMapDown.find? (fun p => p.1 == c) with
  | some p => p.2
  | none => c

def upperCh (c : Char) : Char :=
  match caseMapUp.find? (fun p => p.1 == c) with
  | some p => p.2
  | none => c

def isUpperA (c : Char) : Bool := asciiUpperChars.contains c

def isAsciiLetter (c : Char) : Bool :=
  asciiUpperChars.contains c || asciiLowerChars.contains c

lemma lowerCh_not_upper (c : Char) : isUpperA (lowerCh c) = false := by
  unfold lowerCh
  cases hf : caseMapDown.find? (fun p => p.1 == c) with
  | some p =>
    have hp : p ∈ caseMapDown := List.mem_of_find?_eq_some hf
    have hall : ∀ q ∈ caseMapDown, isUpperA q.2 = false := by decide
    exact hall p hp
  | none =>
    by_contra hb
    have hmem : c ∈ asciiUpperChars := by
      have hu : isUpperA c = true := by
        cases h : isUpperA c with
        | true => rfl
        | false => exact absurd h hb
      exact List.mem_of_elem_eq_true hu
    have hex : ∀ d ∈ asciiUpperChars, ∃ q ∈ caseMapDown, q.1 = d := by decide
    obtain ⟨q, hq, hq1⟩ := hex c hmem
    have := List.find?_eq_none.mp hf q hq
    simp [hq1] at this

/-! ## `gather_set_info` (cleaning.py lines 142-176)

`Set = df['Set'].copy() if 'Set' in df else pd.Series(index=df.index)`;
a missing Set column behaves like a column of missing values, so both
cases are the `Option String` field.  Then two keyword cascades over the
search columns Name, Fueltype, Technology: matches of the CHP pattern set
'CHP', matches of the battery/storage pattern overwrite with 'Store',
and finally missing entries are filled with 'PP'. -/

def startsWithChars : List Char → List Char → Bool
  | [], _ => true
  | _ :: _, [] => false
  | p :: ps, c :: cs => p == c && startsWithChars ps cs

def containsChars (pat : List Char) : List Char → Bool
  | [] => pat.isEmpty
  | c :: cs => startsWithChars pat (c :: cs) || containsChars pat cs

/-- `Series.str.contains(keyword, case=False)` for a literal keyword:
case-insensitive substring containment. -/
def containsCI (s : String) (pat : String) : Bool :=
  containsChars (pat.toList.map lowerCh) (s.toList.map lowerCh)

def chpKeywords : List String :=
  ["heizkraftwerk", "hkw", "chp", "bhkw", "cogeneration",
   "power and heat", "heat and power"]

def storeKeywords : List String := ["battery", "storage"]

/-- A column entry matches the alternation pattern; a missing entry never
matches (`dropna` + `reindex` + `fillna(False)`). -/
def matchesAny (ws : List String) : Option String → Bool
  | none => false
  | some s => ws.any (fun w => containsCI s w)

def rowIsCHP (r : Record) : Bool :=
  matchesAny chpKeywords r.Name || matchesAny chpKeywords r.Fueltype ||
    matchesAny chpKeywords r.Technology

def rowIsStore (r : Record) : Bool :=
  matchesAny storeKeywords r.Name || matchesAny storeKeywords r.Fueltype ||
    matchesAny storeKeywords r.Technology

/-- `gather_set_info` on one row: CHP cascade, then Store cascade
(overwriting), then `fillna('PP')`. -/
def gather_set_info_row (r : Record) : Record :=
  let s1 := if rowIsCHP r then some "CHP" else r.Set
  let s2 := if rowIsStore r then some "Store" else s1
  { r with Set := some (s2.getD "PP") }

/-- `gather_set_info` over the table. -/
def gather_set_info (df : List Record) : List Record := df.map gather_set_info_row

/-- A row matching neither cascade but carrying a pre-existing Set value. -/
def c6row : Record :=
  { blankRecord with Set := some "CHP", Name := some "gas turbine nord" }

/-- C6 counterexample: a record matching neither the CHP nor the storage
cascade keeps its pre-existing Set value — it does NOT end with
Set = "PP". -/
theorem c6_counterexample :
    rowIsCHP c6row = false ∧ rowIsStore c6row = false ∧
    (gather_set_info_row c6row).Set = some "CHP" ∧
    (gather_set_info_row c6row).Set ≠ some "PP" := by decide

/-- C6 amended: a record matching both cascades ends with Set = "Store"
(storage precedence over CHP), and a record matching neither cascade
whose Set entry was missing ends with Set = "PP". -/
theorem c6_amended (r : Record) :
    (rowIsCHP r = true → rowIsStore r = true →
      (gather_set_info_row r).Set = some "Store") ∧
    (rowIsCHP r = false → rowIsStore r = false → r.Set = none →
      (gather_set_info_row r).Set = some "PP") := by
  constructor
  · intro h1 h2
    simp [gather_set_info_row, h1, h2]
  · intro h1 h2 h3
    simp [gather_set_info_row, h1, h2, h3]

/-- A row matching both cascades. -/
def c6both : Record := { blankRecord with Name := some "chp storage unit" }

/-- A row matching neither cascade, Set missing. -/
def c6neither : Record := { blankRecord with Name := some "gas turbine" }

theorem c6_amended_witness :
    (gather_set_info_row c6both).Set = some "Store" ∧
    (gather_set_info_row c6neither).Set = some "PP" :=
  ⟨(c6_amended c6both).1 (by decide) (by decide),
   (c6_amended c6neither).2 (by decide) (by decide) rfl⟩

/-! ## `gather_fueltype_info` (cleaning.py lines 80-98) and claim C9 -/

def lignite_match (o : Option String) : Bool :=
  match o with
  | none => false
  | some s => containsCI s "lignite" || containsCI s "brown"

/-- The frame RETURNED by `gather_fueltype_info` with the default
`search_col=['Name', 'Technology']`: rows whose Name or Technology
matches `(?i)lignite|brown` get Fueltype "Lignite", then any remaining
literal "Coal" is renamed "Hard Coal". -/
def gather_fueltype_info (df : List Record) : List Record :=
  df.map (fun r =>
    let f1 := if lignite_match r.Name || lignite_match r.Technology
              then some "Lignite" else r.Fueltype
    { r with Fueltype := if f1 = some "Coal" then some "Hard Coal" else f1 })

/-- The state of the INPUT frame after `gather_fueltype_info` returns.
`fueltype = pd.Series(df['Fueltype'])` is built with the default
`copy=False`, so the local Series wraps the same block buffer as the
input frame's Fueltype column, and the assignment
`fueltype.loc[found_b...] = 'Lignite'` writes through into the input
frame.  (The subsequent `fueltype.replace(..., inplace=True)` replaces
blocks inside the local Series only, so the `Coal -> Hard Coal` rename is
not written through.) -/
def gather_fueltype_info_inputAfter (df : List Record) : List Record :=
  df.map (fun r =>
    { r with Fueltype := if lignite_match r.Name || lignite_match r.Technology
                         then some "Lignite" else r.Fueltype })

/-- The C9 failing input: a brown-coal plant whose Fueltype says Gas. -/
def c9row : Record :=
  { blankRecord with Name := some "brown coal nord", Fueltype := some "Gas" }

/-- C9 (code_bug evaluation): running the Fueltype classifier on a table
containing `c9row` rewrites the input table's Fueltype column in place to
"Lignite"; the input records are not left unchanged. -/
theorem c9_mutation :
    gather_fueltype_info_inputAfter [c9row] ≠ [c9row] ∧
    (gather_fueltype_info_inputAfter [c9row]).map (fun r => r.Fueltype) =
      [some "Lignite"] ∧
    [c9row].map (fun r => r.Fueltype) = [some "Gas"] := by decide

/-! ## `clean_powerplantname` (cleaning.py lines 33-77)

Per row: replace the punctuation characters and digits by spaces, remove
every pattern of the list `cw ++ ['[a-z]', 'I', ..., 'Kraftwerke']` —
each pattern compiled as `(?i)(^|\s)WORD(?=\s|$)` and substituted by a
single space, scanning left to right — collapse whitespace runs, delete
double quotes, strip, and apply Python `str.capitalize` (which uppercases
the first character and LOWERCASES the rest).  `cw` is the list of
tokens occurring at least 20 times across the whole table. -/

/-- One removal pattern: a literal word sequence (stored lowercased, the
`(?i)` flag) or the character class `[a-z]` (one letter, any case under
`(?i)`). -/
inductive NamePat where
  | lit (w : List Char) : NamePat
  | letterClass : NamePat
  deriving DecidableEq, Repr

/-- The punctuation-and-digit class replaced by a space beforehand. -/
def punctOrDigit (c : Char) : Bool :=
  c == '-' || c == '/' || c == ',' || c == '(' || c == ')' || c == '[' ||
  c == ']' || c == '"' || c == '_' || c == '+' || c.isDigit

def stripPunct (s : String) : String :=
  String.mk (s.toList.map (fun c => if punctOrDigit c then ' ' else c))

/-- Python regex `\s` over the ASCII range. -/
def isWS (c : Char) : Bool :=
  c == ' ' || c == '\t' || c == '\n' || c == '\r' || c == '\x0b' || c == '\x0c'

/-- The lookahead `(?=\s|$)`. -/
def wsOrEnd : List Char → Bool
  | [] => true
  | c :: _ => isWS c

/-- Consume a lowercased literal case-insensitively; return the rest. -/
def eatLit : List Char → List Char → Option (List Char)
  | [], rest => some rest
  | _ :: _, [] => none
  | p :: ps, c :: cs => if lowerCh c == p then eatLit ps cs else none

/-- Try a pattern match at the current position (the `(^|\s)` prefix is
handled by the caller); checks the `(?=\s|$)` lookahead. -/
def eatPat : NamePat → List Char → Option (List Char)
  | NamePat.lit w, cs =>
    match eatLit w cs with
    | some rest => if wsOrEnd rest then some rest else none
    | none => none
  | NamePat.letterClass, [] => none
  | NamePat.letterClass, c :: cs =>
    if isAsciiLetter c && wsOrEnd cs then some cs else none

/-- `re.sub('(?i)(^|\s)PAT(?=\s|$)', ' ', ...)`: scan left to right; at
the string start try the `^` alternative first, elsewhere a whitespace
character must be consumed before the pattern; every match is replaced by
one space and scanning resumes after it.  Fuel bounds the scan
(`length + 1` suffices: every step consumes at least one character). -/
def subScan (p : NamePat) : Nat → Bool → List Char → List Char
  | 0, _, cs => cs
  | _ + 1, _, [] => []
  | fuel + 1, atStart, c :: rest =>
    match (if atStart then eatPat p (c :: rest) else none) with
    | some r => ' ' :: subScan p fuel false r
    | none =>
      if isWS c then
        match eatPat p rest with
        | some r => ' ' :: subScan p fuel false r
        | none => c :: subScan p fuel false rest
      else c :: subScan p fuel false rest

def subPat (p : NamePat) (cs : List Char) : List Char :=
  subScan p (cs.length + 1) true cs

/-- Apply the removal patterns one after the other (the pandas `replace`
applies each regex of the list in order). -/
def applyPats (ps : List NamePat) (cs : List Char) : List Char :=
  ps.foldl (fun acc p => subPat p acc) cs

/-- `.replace('\s+', ' ', regex=True)`: collapse whitespace runs. -/
def collapseWSAux : Bool → List Char → List Char
  | _, [] => []
  | prevWS, c :: cs =>
    if isWS c then
      if prevWS then collapseWSAux true cs
      else ' ' :: collapseWSAux true cs
    else c :: collapseWSAux false cs

def collapseWS (cs : List Char) : List Char := collapseWSAux false cs

/-- Python `str.strip`. -/
def stripEnds (cs : List Char) : List Char :=
  ((cs.dropWhile isWS).reverse.dropWhile isWS).reverse

/-- Python `str.capitalize`: first character uppercased, the REST
lowercased. -/
def pyCapitalize (cs : List Char) : List Char :=
  match cs with
  | [] => []
  | c :: rest => upperCh c :: rest.map lowerCh

/-- The cleaned name before the final capitalisation step. -/
def cleanedChars (ps : List NamePat) (s : String) : List Char :=
  stripEnds ((collapseWS (applyPats ps (stripPunct s).toList)).filter (fun c => c != '"'))

/-- The full per-row name cleaning. -/
def cleanNameRow (ps : List NamePat) (s : String) : String :=
  String.mk (pyCapitalize (cleanedChars ps s))

/-- Compile one pattern word: lowercased literal (`(?i)`). -/
def toPat (w : String) : NamePat := NamePat.lit (w.toList.map lowerCh)

/-- The fixed hand-curated word list of `clean_powerplantname`, in source
order ('[a-z]' comes first). -/
def fixedNameWords : List String :=
  ["I", "II", "III", "IV", "V", "VI", "VII", "VIII", "IX", "X", "XI",
   "Grupo", "parque", "eolico", "gas", "biomasa", "COGENERACION", "gt",
   "unnamed", "tratamiento de purines", "planta", "de", "la", "station",
   "power", "storage", "plant", "stage", "pumped", "project", "dt", "gud",
   "hkw", "kbr", "Kernkraft", "Kernkraftwerk", "kwg", "krb", "ohu", "gkn",
   "Gemeinschaftskernkraftwerk", "kki", "kkp", "kle", "wkw", "rwe", "bis",
   "nordsee", "ostsee", "dampfturbinenanlage", "ikw", "kw",
   "kohlekraftwerk", "raffineriekraftwerk", "Kraftwerke"]

def fixedPats : List NamePat := NamePat.letterClass :: fixedNameWords.map toPat

/-- The removal pattern list for a table whose frequent tokens are `cw`. -/
def namePats (cw : List String) : List NamePat := cw.map toPat ++ fixedPats

/-- `name.str.split()` tokens. -/
def splitWSAux : List Char → List Char → List (List Char)
  | cur, [] => if cur.isEmpty then [] else [cur.reverse]
  | cur, c :: cs =>
    if isWS c then
      if cur.isEmpty then splitWSAux [] cs
      else cur.reverse :: splitWSAux [] cs
    else splitWSAux (c :: cur) cs

def tokensOf (s : String) : List String := (splitWSAux [] s.toList).map String.mk

def dedupFirstAux (seen : List String) : List String → List String
  | [] => []
  | x :: xs =>
    if seen.contains x then dedupFirstAux seen xs
    else x :: dedupFirstAux (x :: seen) xs

/-- `cw`: tokens of global frequency at least 20 over the punctuation-
stripped names.  `value_counts` orders by descending count with
tie order left open by an unstable sort; the order only affects in which
sequence the common-word patterns are removed, and we keep
first-encounter order. -/
def commonWords (strippedNames : List String) : List String :=
  (dedupFirstAux [] (strippedNames.flatMap tokensOf)).filter
    (fun w => decide (20 ≤ (strippedNames.flatMap tokensOf).count w))

/-- Stable insertion by a Bool order. -/
def insertBy {α : Type} (le : α → α → Bool) (x : α) : List α → List α
  | [] => [x]
  | y :: ys => if le x y then x :: y :: ys else y :: insertBy le x ys

/-- Stable insertion sort (pandas `sort_values` sorts by cleaned name;
its tie order is left open by an unstable quicksort, and no claim
depends on it). -/
def sortBy {α : Type} (le : α → α → Bool) : List α → List α
  | [] => []
  | x :: xs => insertBy le x (sortBy le xs)

/-- Table-level `clean_powerplantname`: keep rows with a name, derive the
common-word list from the whole table, clean every name, drop rows whose
name became empty, sort by name (the fresh dense index is the list
position). -/
def clean_powerplantname (df : List Record) : List Record :=
  let present := df.filter (fun r => r.Name.isSome)
  let ps := namePats (commonWords (present.map (fun r => stripPunct (r.Name.getD ""))))
  sortBy (fun a b => decide (a.Name.getD "" ≤ b.Name.getD ""))
    ((present.map (fun r => { r with Name := some (cleanNameRow ps (r.Name.getD "")) })).filter
      (fun r => r.Name != some ""))

/-! ## Claim C7: the final capitalisation step -/

/-- Modelled from the spec: capitalize the FIRST letter only, preserving
the letter case of the rest of the string (spec section 4.1, step 4). -/
def specCapFirstOnly (cs : List Char) : List Char :=
  match cs with
  | [] => []
  | c :: rest => upperCh c :: rest

set_option maxRecDepth 20000 in
/-- C7 counterexample: cleaning the name "MARIA" (no frequent tokens, no
pattern matches) yields "Maria", while capitalising only the first letter
and preserving the rest would yield "MARIA". -/
theorem c7_counterexample :
    cleanNameRow (namePats []) "MARIA" = "Maria" ∧
    String.mk (specCapFirstOnly (cleanedChars (namePats []) "MARIA")) = "MARIA" ∧
    ("Maria" : String) ≠ "MARIA" := by decide

/-- C7 amended: after pattern removal the normalizer capitalises the
first letter and LOWERCASES the rest of the cleaned name (the case of the
rest is not preserved): the tail of the result is the lowercased tail of
the pre-capitalisation string, and no character after the first is an
uppercase ASCII letter. -/
theorem c7_lowercases_rest (ps : List NamePat) (s : String) :
    (cleanNameRow ps s).toList.drop 1 = ((cleanedChars ps s).drop 1).map lowerCh ∧
    ∀ c ∈ (cleanNameRow ps s).toList.drop 1, isUpperA c = false := by
  have htl : (cleanNameRow ps s).toList = pyCapitalize (cleanedChars ps s) := rfl
  rw [htl]
  cases hcs : cleanedChars ps s with
  | nil => exact ⟨rfl, by intro c hc; cases hc⟩
  | cons c0 rest =>
    refine ⟨rfl, ?_⟩
    intro c hc
    simp only [pyCapitalize, List.drop_succ_cons, List.drop_zero] at hc
    obtain ⟨a, _, ha⟩ := List.mem_map.mp hc
    rw [← ha]
    exact lowerCh_not_upper a

set_option maxRecDepth 20000 in
theorem c7_lowercases_rest_witness :
    isUpperA 'a' = false ∧
    (cleanNameRow (namePats []) "MARIA").toList.drop 1 =
      ((cleanedChars (namePats []) "MARIA").drop 1).map lowerCh :=
  ⟨(c7_lowercases_rest (namePats []) "MARIA").2 'a' (by decide),
   (c7_lowercases_rest (namePats []) "MARIA").1⟩
